import Mathlib

/-!
Verification of the lidar tree-detection core of `lidar-system.js`.

The JavaScript source is shallowly embedded: strings become `List Char` /
`String`, byte buffers become `List ℕ`, JS numbers become `ℚ` (exact
rationals; the embedding abstracts from IEEE-754 rounding), and a JS value
that may be `NaN` (from `parseInt` failing) is an `Option`.  JS `Set`
objects become `Finset ℕ`.  Function and field names follow the source.
-/

namespace Lidar

/-! ### JS numeric-string primitives used by `decodeSCIP`

`decodeSCIP` in the source converts each 6-bit digit with
`dig.toString(2).padStart(6, '0')` and then reads the concatenation back
with `parseInt(s, 2)`.  These model `Number.prototype.toString(2)` (for
integers), `String.prototype.padStart`, and `parseInt(s, 2)`.
`jsParseInt2` returns `none` where JS returns `NaN`. -/

/-- `Number.prototype.toString(2)` for a nonnegative integer: binary digits,
most significant first, `"0"` for zero (this is `Nat.toDigits 2`). -/
def jsNatToString2 (n : ℕ) : String :=
  String.mk (Nat.toDigits 2 n)

/-- `Number.prototype.toString(2)` for an integer: a leading `'-'` for
negative values. -/
def jsIntToString2 (i : ℤ) : String :=
  if i < 0 then "-" ++ jsNatToString2 i.natAbs else jsNatToString2 i.toNat

/-- `s.padStart(6, '0')`: left-pad with `'0'` up to length 6. -/
def padStart6 (s : String) : String :=
  String.mk (List.replicate (6 - s.data.length) '0' ++ s.data)

/-- Characters accepted by `parseInt(·, 2)`. -/
def isBinDigitChar (c : Char) : Bool :=
  c == '0' || c == '1'

/-- Value of a list of binary digit characters, most significant first
(non-`'1'` characters count as 0; callers only pass `'0'`/`'1'`). -/
def binListVal (l : List Char) : ℕ :=
  l.foldl (fun acc c => 2 * acc + (if c == '1' then 1 else 0)) 0

/-- `parseInt(s, 2)`: skip leading spaces, optional sign, then the longest
prefix of binary digits; `none` (JS `NaN`) when no digit is found. -/
def jsParseInt2 (s : String) : Option ℤ :=
  match s.data.dropWhile (fun c => c == ' ') with
  | [] => none
  | '-' :: rest =>
    let ds := rest.takeWhile isBinDigitChar
    if ds.isEmpty then none else some (-(binListVal ds : ℤ))
  | '+' :: rest =>
    let ds := rest.takeWhile isBinDigitChar
    if ds.isEmpty then none else some ((binListVal ds : ℤ))
  | l =>
    let ds := l.takeWhile isBinDigitChar
    if ds.isEmpty then none else some ((binListVal ds : ℤ))

/-! ### `decodeSCIP` (the RangeValueCodec of the spec) -/

/-- `decodeSCIP(rangeenc)` from the source, on a 3-character group.
`none` is JS `NaN`.  The source computes
`dig = (charCode - '!'.charCodeAt(0)) + 33` (which is just the char code)
and `digsub = dig - 48`, renders each `digsub` with
`toString(2).padStart(6,'0')`, concatenates and applies `parseInt(·, 2)`. -/
def decodeSCIP (c0 c1 c2 : Char) : Option ℤ :=
  if c0 = '0' ∧ c1 = '0' ∧ c2 = '0' then
    some 0
  else if c0 = '0' then
    let dig1 : ℤ := ((c1.toNat : ℤ) - 33) + 33
    let dig2 : ℤ := ((c2.toNat : ℤ) - 33) + 33
    let dig1sub : ℤ := dig1 - 48
    let dig2sub : ℤ := dig2 - 48
    jsParseInt2 (padStart6 (jsIntToString2 dig1sub) ++ padStart6 (jsIntToString2 dig2sub))
  else
    let dig1 : ℤ := ((c0.toNat : ℤ) - 33) + 33
    let dig2 : ℤ := ((c1.toNat : ℤ) - 33) + 33
    let dig3 : ℤ := ((c2.toNat : ℤ) - 33) + 33
    let dig1sub : ℤ := dig1 - 48
    let dig2sub : ℤ := dig2 - 48
    let dig3sub : ℤ := dig3 - 48
    jsParseInt2 (padStart6 (jsIntToString2 dig1sub) ++ padStart6 (jsIntToString2 dig2sub) ++
      padStart6 (jsIntToString2 dig3sub))

/-- The 6-bit digit a character contributes in the encoding scheme
(codepoint minus 48), as used in the claims about digit ranges. -/
def scipDigit (c : Char) : ℤ :=
  (c.toNat : ℤ) - 48

/-! ### STP-23L height packet decoder (`STP23LSensor.parseData`)

Byte buffers (`Uint8Array`) are `List ℕ`.  JS bitwise operators coerce to
32-bit two's-complement integers; `toInt32`, `jsShl32` and `jsOr32` model
`ToInt32`, `<<` and `|`. -/

/-- `ToInt32`: wrap an integer into `[-2^31, 2^31)`. -/
def toInt32 (n : ℤ) : ℤ :=
  (n + 2 ^ 31) % 2 ^ 32 - 2 ^ 31

/-- JS `a << b` on 32-bit two's-complement integers. -/
def jsShl32 (a : ℤ) (b : ℕ) : ℤ :=
  toInt32 (toInt32 a * 2 ^ b)

/-- JS `a | b` on 32-bit two's-complement integers. -/
def jsOr32 (a b : ℤ) : ℤ :=
  Int.lor (toInt32 a) (toInt32 b)

/-- `STP23L_CONSTANTS` from the source (the fields the decoder uses). -/
def START_BYTE : ℕ := 0xAA

def DATA_START_INDEX : ℕ := 10

def DATA_INTERVAL : ℕ := 15

/-- `STP23L_CONSTANTS.DATA_FIELDS`: sub-offsets within one 15-byte record. -/
def DISTANCE_LOW : ℕ := 0

def DISTANCE_HIGH : ℕ := 1

def NOISE_LOW : ℕ := 2

def NOISE_HIGH : ℕ := 3

def PEAK_1 : ℕ := 4

def PEAK_2 : ℕ := 5

def PEAK_3 : ℕ := 6

def PEAK_4 : ℕ := 7

def CONFIDENCE : ℕ := 8

def INTG_1 : ℕ := 9

def INTG_2 : ℕ := 10

def INTG_3 : ℕ := 11

def INTG_4 : ℕ := 12

def REFTOF_LOW : ℕ := 13

def REFTOF_HIGH : ℕ := 14

/-- One decoded STP-23L measurement (`distance`, `noise`, `peak`,
`confidence`, `intg`, `reftof` as pushed by `parseData`). -/
structure Measurement where
  distance : ℤ
  noise : ℤ
  peak : ℤ
  confidence : ℤ
  intg : ℤ
  reftof : ℤ
deriving Repr, DecidableEq, Inhabited

/-- The record decoded at byte offset `i` (the loop body of `parseData`).
The loop guard keeps every accessed index in bounds, so the `getD` default
is never reached there. -/
def mkMeasurement (data : List ℕ) (i : ℕ) : Measurement :=
  let b : ℕ → ℤ := fun k => (data.getD (i + k) 0 : ℤ)
  { distance := jsOr32 (jsShl32 (b DISTANCE_HIGH) 8) (b DISTANCE_LOW)
    noise := jsOr32 (jsShl32 (b NOISE_HIGH) 8) (b NOISE_LOW)
    peak := jsOr32 (jsOr32 (jsOr32 (jsShl32 (b PEAK_1) 24) (jsShl32 (b PEAK_2) 16))
      (jsShl32 (b PEAK_3) 8)) (b PEAK_4)
    confidence := b CONFIDENCE
    intg := jsOr32 (jsOr32 (jsOr32 (jsShl32 (b INTG_1) 24) (jsShl32 (b INTG_2) 16))
      (jsShl32 (b INTG_3) 8)) (b INTG_4)
    reftof := jsOr32 (jsShl32 (b REFTOF_HIGH) 8) (b REFTOF_LOW) }

/-- `STP23LSensor.parseData`: start-marker check, then records decoded at
offsets `DATA_START_INDEX, +DATA_INTERVAL, …` while `i + DATA_INTERVAL <
data.length` (the source's `for` loop with its in-body guard; iterations
whose remaining bytes are insufficient push nothing).  `none` is the
source's `null` return for a bad start byte. -/
def parseData (data : List ℕ) : Option (List Measurement) :=
  if data.getD 0 0 ≠ START_BYTE then
    none
  else
    some ((((List.range data.length).filter fun i =>
      decide (DATA_START_INDEX ≤ i ∧ (i - DATA_START_INDEX) % DATA_INTERVAL = 0 ∧
        i + DATA_INTERVAL < data.length)).map (mkMeasurement data)))

/-! ### Scan-frame pipeline (`processLidarData` and helpers)

A raw frame is a `List Char`.  `jsSubstring` models
`String.prototype.substring` (clamping both arguments to the string length
and swapping them when out of order). -/

/-- `LIDAR_CONSTANTS` fields used by the frame pipeline. -/
def EXPECTED_DATA_SIZE : ℕ := 2134

def START_ANGLE : ℤ := -120

def END_ANGLE : ℤ := 120

def TOTAL_POINTS : ℕ := 682

/-- `String.prototype.substring(start, stop)`. -/
def jsSubstring (s : List Char) (start stop : ℕ) : List Char :=
  let a := min start s.length
  let b := min stop s.length
  (s.drop (min a b)).take (max a b - min a b)

/-- `findStartIndices(data, startChar)`: indices of every occurrence of
`startChar` (the source's linear scan, expressed over the indexed list). -/
def findStartIndices (data : List Char) (startChar : Char) : List ℕ :=
  (data.enum.filter fun p => p.2 == startChar).map fun p => p.1

/-- `reorganizeRangeData(rangedata)`: for each of 32 blocks keep
`substring(1 + 66*j, 64 + 66*j)` when the block end fits, concatenated in
block order. -/
def reorganizeRangeData (rangedata : List Char) : List Char :=
  (List.range 32).foldl
    (fun acc j =>
      if 64 + 66 * j ≤ rangedata.length then
        acc ++ jsSubstring rangedata (1 + 66 * j) (64 + 66 * j)
      else acc)
    []

/-- `encodeDistanceData(onlyrangedata)`: consecutive non-overlapping
3-character groups (the source loops `i < floor(len/3)` reading characters
`3i, 3i+1, 3i+2`; any trailing 1–2 characters are dropped, identically). -/
def encodeDistanceData : List Char → List (Char × Char × Char)
  | c0 :: c1 :: c2 :: rest => (c0, c1, c2) :: encodeDistanceData rest
  | _ => []

/-- `decodeDistanceData(encodeddist)`: decode every group with
`decodeSCIP`, preserving order. -/
def decodeDistanceData (encodeddist : List (Char × Char × Char)) : List (Option ℤ) :=
  encodeddist.map fun g => decodeSCIP g.1 g.2.1 g.2.2

/-- `processLidarData(rawData)` up to and including distance decoding
(the `ranges` array).  `Except.error` models the thrown exceptions for a
short buffer and for fewer than 3 marker occurrences. -/
def processLidarData (rawData : List Char) : Except String (List (Option ℤ)) :=
  if rawData.length < EXPECTED_DATA_SIZE then
    Except.error "insufficient data length"
  else
    let data := rawData.take EXPECTED_DATA_SIZE
    let startChar := data.getD 12 ' '
    let startIndices := findStartIndices data startChar
    if startIndices.length < 3 then
      Except.error "fewer than 3 start markers"
    else
      let rangedata := jsSubstring data (startIndices.getD 2 0 + 1) (data.length - 1)
      let onlyrangedata := reorganizeRangeData rangedata
      let encodeddist := encodeDistanceData onlyrangedata
      Except.ok (decodeDistanceData encodeddist)

/-- One scan sample as pushed by `convertToCoordinates` (`angle` in
radians; `distance`, `x`, `y` are `none` when the decoded value was NaN). -/
structure ScanPoint where
  angle : ℝ
  distance : Option ℤ
  x : Option ℝ
  y : Option ℝ

/-- `convertToCoordinates(ranges)`: for index `i`,
`angle = (START_ANGLE + (240*i)/TOTAL_POINTS) * π/180`,
`x = distance*cos(angle)`, `y = distance*sin(angle)`. -/
noncomputable def convertToCoordinates (ranges : List (Option ℤ)) : List ScanPoint :=
  (List.range ranges.length).map fun (i : ℕ) =>
    let angle : ℝ := (((START_ANGLE : ℤ) : ℝ) + (240 * (i : ℝ)) / ((TOTAL_POINTS : ℕ) : ℝ)) *
      Real.pi / 180
    let distance := ranges.getD i none
    { angle := angle
      distance := distance
      x := distance.map fun d => (d : ℝ) * Real.cos angle
      y := distance.map fun d => (d : ℝ) * Real.sin angle }

/-- `processLidarData` followed by `convertToCoordinates`: the full
scan-frame decode returning the `scanData` array. -/
noncomputable def processScan (rawData : List Char) : Except String (List ScanPoint) :=
  (processLidarData rawData).map convertToCoordinates

/-- A synthetic well-formed 2134-character frame: marker `'X'` at index 12,
with two earlier occurrences at indices 10 and 11 so the third occurrence
is at index 12 and the 32-block payload is complete; every payload
character is `'0'`. -/
def frameC1 : List Char :=
  List.replicate 10 '0' ++ 'X' :: 'X' :: 'X' :: List.replicate 2121 '0'

/-! ### Detection pipeline (`detectTrees`, `dbscan`, `fitCircle`)

JS numbers are modelled as exact rationals.  `Math.sqrt(d) <= eps` is
modelled by the equivalent exact condition `0 ≤ eps ∧ d ≤ eps²` (see
`sqrt_le_iff_nonneg_sq`); where a square root's *value* is needed (the
fitted radius) the model is parametric in `sqrtFn : ℚ → ℚ` standing for
`Math.sqrt`, so every theorem below holds for any square-root
implementation.  JS `Set` objects are `Finset ℕ` over point indices;
clusters are index lists (the source pushes the point objects
`points[idx]`; `cl.map (points.getD · default)` recovers them). -/

/-- A scan point as consumed by the detection pipeline (`distance` in mm
plus plane coordinates). -/
structure TreePoint where
  distance : ℚ
  x : ℚ
  y : ℚ
deriving Repr, DecidableEq, Inhabited

/-- `this.detectionParams`. -/
structure DetectionParams where
  eps : ℚ
  minPoints : ℕ
  minRadius : ℚ
  maxRadius : ℚ
deriving Repr, DecidableEq

/-- A detected tree as pushed by `detectTrees`. -/
structure Tree where
  centerX : ℚ
  centerY : ℚ
  radius : ℚ
  diameter : ℚ
  points : List TreePoint
deriving Repr, DecidableEq

/-- `getNeighbors(points, index)`: indices of all other points within
Euclidean distance `eps` (the source compares `Math.sqrt(dx²+dy²) <= eps`,
which over the reals is exactly `0 ≤ eps ∧ dx²+dy² ≤ eps²`; an
out-of-range index would produce NaN distances in JS, hence no
neighbors). -/
def getNeighbors (points : List TreePoint) (eps : ℚ) (index : ℕ) : List ℕ :=
  if index < points.length then
    (List.range points.length).filter fun other =>
      decide (other ≠ index ∧ 0 ≤ eps ∧
        ((points.getD index default).x - (points.getD other default).x) ^ 2 +
          ((points.getD index default).y - (points.getD other default).y) ^ 2 ≤ eps ^ 2)
  else []

/-- `expandCluster(points, neighbors, cluster, visited, noise)`: the
source's `while (i < neighbors.length)` loop over a work-list that grows at
the end; `queue` is the unprocessed suffix.  Returns the final `visited`
set and the cluster (index list). -/
def expandCluster (points : List TreePoint) (eps : ℚ) (minPoints : ℕ)
    (queue : List ℕ) (visited noise : Finset ℕ) (cluster : List ℕ) :
    Finset ℕ × List ℕ :=
  match queue with
  | [] => (visited, cluster)
  | q :: rest =>
    if q ∈ visited then
      expandCluster points eps minPoints rest visited noise
        (if q ∈ noise then cluster else cluster ++ [q])
    else
      let newNeighbors := getNeighbors points eps q
      expandCluster points eps minPoints
        (if minPoints ≤ newNeighbors.length then rest ++ newNeighbors else rest)
        (insert q visited) noise
        (if q ∈ noise then cluster else cluster ++ [q])
termination_by ((Finset.range points.length \ visited).card, queue.length)
decreasing_by
  · apply Prod.Lex.right
    simp
  · rcases Nat.lt_or_ge q points.length with hq | hq
    · apply Prod.Lex.left
      apply Finset.card_lt_card
      constructor
      · exact Finset.sdiff_subset_sdiff (le_refl _) (Finset.subset_insert q visited)
      · intro hsub
        have hmem : q ∈ Finset.range points.length \ visited := by
          simp [Finset.mem_sdiff, Finset.mem_range]
          exact ⟨hq, by assumption⟩
        have := hsub hmem
        simp [Finset.mem_sdiff] at this
    · have hnn : getNeighbors points eps q = [] := by
        unfold getNeighbors
        rw [if_neg (by omega)]
      have hsd : Finset.range points.length \ insert q visited =
          Finset.range points.length \ visited := by
        ext x
        simp only [Finset.mem_sdiff, Finset.mem_insert, Finset.mem_range]
        constructor
        · rintro ⟨hx, hx2⟩
          exact ⟨hx, fun h => hx2 (Or.inr h)⟩
        · rintro ⟨hx, hx2⟩
          refine ⟨hx, ?_⟩
          rintro (rfl | h)
          · omega
          · exact hx2 h
      rw [hsd, hnn]
      apply Prod.Lex.right
      simp

/-- The outer loop of `dbscan(points)` (`points.forEach`): `remaining` is
the unprocessed index suffix.  Returns the final `visited` and `noise`
sets and the cluster list. -/
def dbscanLoop (points : List TreePoint) (eps : ℚ) (minPoints : ℕ) :
    List ℕ → Finset ℕ → Finset ℕ → List (List ℕ) →
      Finset ℕ × Finset ℕ × List (List ℕ)
  | [], visited, noise, clusters => (visited, noise, clusters)
  | p :: rest, visited, noise, clusters =>
    if p ∈ visited then
      dbscanLoop points eps minPoints rest visited noise clusters
    else
      let neighbors := getNeighbors points eps p
      if neighbors.length < minPoints then
        dbscanLoop points eps minPoints rest (insert p visited) (insert p noise) clusters
      else
        let r := expandCluster points eps minPoints neighbors (insert p visited) noise [p]
        dbscanLoop points eps minPoints rest r.1 noise (clusters ++ [r.2])

/-- `dbscan(points)`: visited/noise sets start empty; iterate all indices
in input order.  Result: `(visited, noise, clusters)`. -/
def dbscan (points : List TreePoint) (eps : ℚ) (minPoints : ℕ) :
    Finset ℕ × Finset ℕ × List (List ℕ) :=
  dbscanLoop points eps minPoints (List.range points.length) ∅ ∅ []

/-- The clusters of `dbscan` as lists of points (the arrays of point
objects the source returns). -/
def dbscanClusters (points : List TreePoint) (eps : ℚ) (minPoints : ℕ) :
    List (List TreePoint) :=
  (dbscan points eps minPoints).2.2.map fun cl => cl.map (points.getD · default)

/-- The two `return null` reasons of `fitCircle`. -/
inductive FitFailure where
  | notEnoughPoints
  | degenerateFit
deriving Repr, DecidableEq

/-- The circle returned by `fitCircle`. -/
structure FitCircleResult where
  centerX : ℚ
  centerY : ℚ
  radius : ℚ
deriving Repr, DecidableEq

instance decEqExcept {ε α : Type} [DecidableEq ε] [DecidableEq α] :
    DecidableEq (Except ε α)
  | Except.error e, Except.error f =>
    if h : e = f then isTrue (by rw [h]) else
      isFalse (by intro hx; cases hx; exact h rfl)
  | Except.error _, Except.ok _ => isFalse (by intro hx; cases hx)
  | Except.ok _, Except.error _ => isFalse (by intro hx; cases hx)
  | Except.ok a, Except.ok b =>
    if h : a = b then isTrue (by rw [h]) else
      isFalse (by intro hx; cases hx; exact h rfl)

/-- The normal-equation determinant `det = A·C − B²` accumulated by
`fitCircle` from the moment sums. -/
def circleDet (pts : List TreePoint) : ℚ :=
  let n : ℚ := pts.length
  let sumX := (pts.map fun p => p.x).sum
  let sumY := (pts.map fun p => p.y).sum
  let sumX2 := (pts.map fun p => p.x * p.x).sum
  let sumY2 := (pts.map fun p => p.y * p.y).sum
  let sumXY := (pts.map fun p => p.x * p.y).sum
  let A := n * sumX2 - sumX * sumX
  let B := n * sumXY - sumX * sumY
  let C := n * sumY2 - sumY * sumY
  A * C - B * B

/-- The epsilon of the degeneracy test (`1e-10` in the source). -/
def detEpsilon : ℚ := 1 / 10 ^ 10

/-- `fitCircle(points)`: closed-form least-squares circle.  The source
returns `null` both for fewer than 3 points and for `|det| < 1e-10`; the
two distinct `return null` sites are distinguished as `notEnoughPoints`
and `degenerateFit`.  `sqrtFn` stands for `Math.sqrt` in the radius (mean
distance from the points to the center). -/
def fitCircle (sqrtFn : ℚ → ℚ) (pts : List TreePoint) :
    Except FitFailure FitCircleResult :=
  if pts.length < 3 then
    Except.error FitFailure.notEnoughPoints
  else
    let n : ℚ := pts.length
    let sumX := (pts.map fun p => p.x).sum
    let sumY := (pts.map fun p => p.y).sum
    let sumX2 := (pts.map fun p => p.x * p.x).sum
    let sumY2 := (pts.map fun p => p.y * p.y).sum
    let sumXY := (pts.map fun p => p.x * p.y).sum
    let sumX3 := (pts.map fun p => p.x * p.x * p.x).sum
    let sumY3 := (pts.map fun p => p.y * p.y * p.y).sum
    let sumXY2 := (pts.map fun p => p.x * p.y * p.y).sum
    let sumX2Y := (pts.map fun p => p.x * p.x * p.y).sum
    let A := n * sumX2 - sumX * sumX
    let B := n * sumXY - sumX * sumY
    let C := n * sumY2 - sumY * sumY
    let D := (1 / 2 : ℚ) * (n * sumXY2 - sumX * sumY2 + n * sumX3 - sumX * sumX2)
    let E := (1 / 2 : ℚ) * (n * sumX2Y - sumY * sumX2 + n * sumY3 - sumY * sumY2)
    if |circleDet pts| < detEpsilon then
      Except.error FitFailure.degenerateFit
    else
      let centerX := (D * C - B * E) / circleDet pts
      let centerY := (A * E - B * D) / circleDet pts
      let radius := (pts.foldl
        (fun acc p => acc + sqrtFn ((p.x - centerX) * (p.x - centerX) +
          (p.y - centerY) * (p.y - centerY))) 0) / n
      Except.ok { centerX := centerX, centerY := centerY, radius := radius }

/-- The per-cluster body of `detectTrees`'s `clusters.forEach`: fit a
circle when the cluster is large enough and push an accepted tree when the
radius is within bounds; otherwise leave the accumulator unchanged. -/
def treeAccum (sqrtFn : ℚ → ℚ) (validPoints : List TreePoint) (dp : DetectionParams)
    (acc : List Tree) (cl : List ℕ) : List Tree :=
  if dp.minPoints ≤ cl.length then
    match fitCircle sqrtFn (cl.map (validPoints.getD · default)) with
    | Except.ok circle =>
      if dp.minRadius ≤ circle.radius ∧ circle.radius ≤ dp.maxRadius then
        acc ++ [{ centerX := circle.centerX, centerY := circle.centerY,
                  radius := circle.radius, diameter := circle.radius * 2,
                  points := cl.map (validPoints.getD · default) }]
      else acc
    | Except.error _ => acc
  else acc

/-- `detectTrees()`: the state transition on `this.trees`.  `trees` is the
previous detection list; the two early `return`s leave it unchanged, the
successful path rebuilds it from scratch (`this.trees = []` then pushes). -/
def detectTrees (sqrtFn : ℚ → ℚ) (scanData : List TreePoint)
    (minRange maxRange : ℚ) (dp : DetectionParams) (trees : List Tree) : List Tree :=
  if scanData.length = 0 then
    trees
  else
    let validPoints := scanData.filter fun p =>
      decide (minRange < p.distance ∧ p.distance < maxRange)
    if validPoints.length < dp.minPoints then
      trees
    else
      let clusters := (dbscan validPoints dp.eps dp.minPoints).2.2
      clusters.foldl (treeAccum sqrtFn validPoints dp) []

/-! ### Lemmas about the codec primitives -/

theorem binListVal_foldl (l : List Char) (a : ℕ) :
    l.foldl (fun acc c => 2 * acc + (if c == '1' then 1 else 0)) a =
      a * 2 ^ l.length + binListVal l := by
  induction l generalizing a with
  | nil => simp [binListVal]
  | cons c t ih =>
    have h1 : binListVal (c :: t) =
        (2 * 0 + (if c == '1' then 1 else 0)) * 2 ^ t.length + binListVal t := by
      unfold binListVal
      rw [List.foldl_cons]
      exact ih _
    simp only [List.foldl_cons, List.length_cons]
    rw [ih, h1]
    ring

theorem binListVal_append (l1 l2 : List Char) :
    binListVal (l1 ++ l2) = binListVal l1 * 2 ^ l2.length + binListVal l2 := by
  unfold binListVal
  rw [List.foldl_append, binListVal_foldl]
  rfl

theorem takeWhile_of_all {p : Char → Bool} {l : List Char} (h : l.all p = true) :
    l.takeWhile p = l := by
  induction l with
  | nil => rfl
  | cons c t ih =>
    simp only [List.all_cons, Bool.and_eq_true] at h
    simp [List.takeWhile, h.1, ih h.2]

/-- `parseInt(s, 2)` on a nonempty all-binary-digit string reads the whole
string as a binary numeral. -/
theorem jsParseInt2_of_all_bin (l : List Char) (hne : l ≠ [])
    (hall : l.all isBinDigitChar = true) :
    jsParseInt2 (String.mk l) = some ((binListVal l : ℤ)) := by
  match l, hne with
  | c :: rest, _ =>
    have hc : c = '0' ∨ c = '1' := by
      have hh : isBinDigitChar c = true := by
        rw [List.all_cons, Bool.and_eq_true] at hall
        exact hall.1
      simp only [isBinDigitChar, Bool.or_eq_true, beq_iff_eq] at hh
      exact hh
    have htw : (c :: rest).takeWhile isBinDigitChar = c :: rest := takeWhile_of_all hall
    rcases hc with hc | hc <;> subst hc <;>
      simp [jsParseInt2, List.dropWhile, htw]

/-- For a 6-bit digit `d ∈ [0, 64)`, `d.toString(2).padStart(6, '0')` is a
6-character binary numeral for `d`. -/
theorem pad6_spec : ∀ d : ℕ, d < 64 →
    (padStart6 (jsIntToString2 (d : ℤ))).data.all isBinDigitChar = true ∧
    (padStart6 (jsIntToString2 (d : ℤ))).data.length = 6 ∧
    binListVal (padStart6 (jsIntToString2 (d : ℤ))).data = d := by
  decide

/-- Any integer digit in `[0, 63]` is the cast of a natural below 64. -/
theorem exists_nat_digit {d : ℤ} (h0 : 0 ≤ d) (h63 : d ≤ 63) :
    ∃ n : ℕ, d = (n : ℤ) ∧ n < 64 := by
  refine ⟨d.toNat, ?_, ?_⟩ <;> omega

/-- `decodeSCIP` on a group whose first character is `'0'` and whose other
two digits lie in `[0, 63]` yields `d1 * 64 + d2`. -/
theorem decodeSCIP_two_char (c1 c2 : Char)
    (h1 : 0 ≤ scipDigit c1 ∧ scipDigit c1 ≤ 63)
    (h2 : 0 ≤ scipDigit c2 ∧ scipDigit c2 ≤ 63) :
    decodeSCIP '0' c1 c2 = some (scipDigit c1 * 64 + scipDigit c2) := by
  obtain ⟨n1, hn1, hn1lt⟩ := exists_nat_digit h1.1 h1.2
  obtain ⟨n2, hn2, hn2lt⟩ := exists_nat_digit h2.1 h2.2
  obtain ⟨a1, l1, v1⟩ := pad6_spec n1 hn1lt
  obtain ⟨a2, l2, v2⟩ := pad6_spec n2 hn2lt
  have key : jsParseInt2
      (padStart6 (jsIntToString2 (scipDigit c1)) ++ padStart6 (jsIntToString2 (scipDigit c2))) =
      some (scipDigit c1 * 64 + scipDigit c2) := by
    rw [hn1, hn2]
    have hd : (padStart6 (jsIntToString2 (n1 : ℤ)) ++ padStart6 (jsIntToString2 (n2 : ℤ))) =
        String.mk ((padStart6 (jsIntToString2 (n1 : ℤ))).data ++
          (padStart6 (jsIntToString2 (n2 : ℤ))).data) := by
      apply String.ext
      simp [String.data_append]
    have harith : ((n1 * 2 ^ 6 + n2 : ℕ) : ℤ) = (n1 : ℤ) * 64 + (n2 : ℤ) := by
      push_cast
      ring
    rw [hd, jsParseInt2_of_all_bin]
    · rw [binListVal_append, l2, v1, v2, harith]
    · intro h
      have := congrArg List.length h
      simp [l1, l2] at this
    · simp only [List.all_append]
      rw [a1, a2]
      rfl
  by_cases hz : c1 = '0' ∧ c2 = '0'
  · obtain ⟨hz1, hz2⟩ := hz
    subst hz1
    subst hz2
    decide
  · have hz' : ¬('0' = '0' ∧ c1 = '0' ∧ c2 = '0') := by
      intro h
      exact hz ⟨h.2.1, h.2.2⟩
    have e1 : ((c1.toNat : ℤ) - 33) + 33 - 48 = scipDigit c1 := by
      unfold scipDigit
      ring
    have e2 : ((c2.toNat : ℤ) - 33) + 33 - 48 = scipDigit c2 := by
      unfold scipDigit
      ring
    rw [decodeSCIP.eq_def, if_neg hz', if_pos rfl]
    simp only [e1, e2]
    exact key

/-- `decodeSCIP` on a group whose first character is not `'0'` and whose
digits all lie in `[0, 63]` yields `d0 * 4096 + d1 * 64 + d2`. -/
theorem decodeSCIP_three_char (c0 c1 c2 : Char) (hne : c0 ≠ '0')
    (h0 : 0 ≤ scipDigit c0 ∧ scipDigit c0 ≤ 63)
    (h1 : 0 ≤ scipDigit c1 ∧ scipDigit c1 ≤ 63)
    (h2 : 0 ≤ scipDigit c2 ∧ scipDigit c2 ≤ 63) :
    decodeSCIP c0 c1 c2 =
      some (scipDigit c0 * 4096 + scipDigit c1 * 64 + scipDigit c2) := by
  obtain ⟨n0, hn0, hn0lt⟩ := exists_nat_digit h0.1 h0.2
  obtain ⟨n1, hn1, hn1lt⟩ := exists_nat_digit h1.1 h1.2
  obtain ⟨n2, hn2, hn2lt⟩ := exists_nat_digit h2.1 h2.2
  obtain ⟨a0, l0, v0⟩ := pad6_spec n0 hn0lt
  obtain ⟨a1, l1, v1⟩ := pad6_spec n1 hn1lt
  obtain ⟨a2, l2, v2⟩ := pad6_spec n2 hn2lt
  have hz' : ¬(c0 = '0' ∧ c1 = '0' ∧ c2 = '0') := fun h => hne h.1
  have e0 : ((c0.toNat : ℤ) - 33) + 33 - 48 = scipDigit c0 := by
    unfold scipDigit
    ring
  have e1 : ((c1.toNat : ℤ) - 33) + 33 - 48 = scipDigit c1 := by
    unfold scipDigit
    ring
  have e2 : ((c2.toNat : ℤ) - 33) + 33 - 48 = scipDigit c2 := by
    unfold scipDigit
    ring
  rw [decodeSCIP.eq_def, if_neg hz', if_neg hne]
  simp only [e0, e1, e2]
  rw [hn0, hn1, hn2]
  have hd : (padStart6 (jsIntToString2 (n0 : ℤ)) ++ padStart6 (jsIntToString2 (n1 : ℤ)) ++
      padStart6 (jsIntToString2 (n2 : ℤ))) =
      String.mk ((padStart6 (jsIntToString2 (n0 : ℤ))).data ++
        ((padStart6 (jsIntToString2 (n1 : ℤ))).data ++
          (padStart6 (jsIntToString2 (n2 : ℤ))).data)) := by
    apply String.ext
    simp [String.data_append]
  have hlen : ((padStart6 (jsIntToString2 (n1 : ℤ))).data ++
      (padStart6 (jsIntToString2 (n2 : ℤ))).data).length = 12 := by
    rw [List.length_append, l1, l2]
  have harith : ((n0 * 2 ^ 12 + (n1 * 2 ^ 6 + n2) : ℕ) : ℤ) =
      (n0 : ℤ) * 4096 + (n1 : ℤ) * 64 + (n2 : ℤ) := by
    push_cast
    ring
  rw [hd, jsParseInt2_of_all_bin]
  · rw [binListVal_append, hlen, binListVal_append, l2, v0, v1, v2, harith]
  · intro h
    have := congrArg List.length h
    simp [l0, l1, l2] at this
  · simp only [List.all_append]
    rw [a0, a1, a2]
    rfl

/-- `decodeSCIP` on a group whose first character is `'p'` (6-bit digit 64,
out of range) and whose other digits are in `[0, 63]` still returns an
integer: `2^18 + d1·64 + d2`. -/
theorem decodeSCIP_p_char (c1 c2 : Char)
    (h1 : 0 ≤ scipDigit c1 ∧ scipDigit c1 ≤ 63)
    (h2 : 0 ≤ scipDigit c2 ∧ scipDigit c2 ≤ 63) :
    decodeSCIP 'p' c1 c2 = some (262144 + scipDigit c1 * 64 + scipDigit c2) := by
  obtain ⟨n1, hn1, hn1lt⟩ := exists_nat_digit h1.1 h1.2
  obtain ⟨n2, hn2, hn2lt⟩ := exists_nat_digit h2.1 h2.2
  obtain ⟨a1, l1, v1⟩ := pad6_spec n1 hn1lt
  obtain ⟨a2, l2, v2⟩ := pad6_spec n2 hn2lt
  have hp : ('p' : Char) ≠ '0' := by decide
  have hz' : ¬(('p' : Char) = '0' ∧ c1 = '0' ∧ c2 = '0') := fun h => hp h.1
  have e0 : ((('p' : Char).toNat : ℤ) - 33) + 33 - 48 = (64 : ℤ) := by decide
  have e1 : ((c1.toNat : ℤ) - 33) + 33 - 48 = scipDigit c1 := by
    unfold scipDigit
    ring
  have e2 : ((c2.toNat : ℤ) - 33) + 33 - 48 = scipDigit c2 := by
    unfold scipDigit
    ring
  have a0 : (padStart6 (jsIntToString2 (64 : ℤ))).data.all isBinDigitChar = true := by decide
  have l0 : (padStart6 (jsIntToString2 (64 : ℤ))).data.length = 7 := by decide
  have v0 : binListVal (padStart6 (jsIntToString2 (64 : ℤ))).data = 64 := by decide
  rw [decodeSCIP.eq_def, if_neg hz', if_neg hp]
  simp only [e0, e1, e2]
  rw [hn1, hn2]
  have hd : (padStart6 (jsIntToString2 (64 : ℤ)) ++ padStart6 (jsIntToString2 (n1 : ℤ)) ++
      padStart6 (jsIntToString2 (n2 : ℤ))) =
      String.mk ((padStart6 (jsIntToString2 (64 : ℤ))).data ++
        ((padStart6 (jsIntToString2 (n1 : ℤ))).data ++
          (padStart6 (jsIntToString2 (n2 : ℤ))).data)) := by
    apply String.ext
    simp [String.data_append]
  have hlen : ((padStart6 (jsIntToString2 (n1 : ℤ))).data ++
      (padStart6 (jsIntToString2 (n2 : ℤ))).data).length = 12 := by
    rw [List.length_append, l1, l2]
  have harith : ((64 * 2 ^ 12 + (n1 * 2 ^ 6 + n2) : ℕ) : ℤ) =
      262144 + (n1 : ℤ) * 64 + (n2 : ℤ) := by
    push_cast
    ring
  rw [hd, jsParseInt2_of_all_bin]
  · rw [binListVal_append, hlen, binListVal_append, l2, v0, v1, v2, harith]
  · intro h
    have := congrArg List.length h
    simp [l0, l1, l2] at this
  · simp only [List.all_append]
    rw [a0, a1, a2]
    rfl

/-! ### Claim C7 -/

/-- C7: for every group of characters whose 6-bit digits are all in
`[0, 63]`, `decodeSCIP` (RangeValueCodec.decode) returns a value in
`[0, 4095]` for a 2-character encoding (first character `'0'`) and in
`[0, 262143]` for a 3-character encoding, and the group `"000"` decodes to
exactly 0. -/
theorem c7_rangeValueCodec_bounds :
    (∀ c0 c1 c2 : Char,
        0 ≤ scipDigit c0 → scipDigit c0 ≤ 63 →
        0 ≤ scipDigit c1 → scipDigit c1 ≤ 63 →
        0 ≤ scipDigit c2 → scipDigit c2 ≤ 63 →
        (c0 = '0' → ∃ v : ℤ, decodeSCIP c0 c1 c2 = some v ∧ 0 ≤ v ∧ v ≤ 4095) ∧
        (c0 ≠ '0' → ∃ v : ℤ, decodeSCIP c0 c1 c2 = some v ∧ 0 ≤ v ∧ v ≤ 262143)) ∧
    decodeSCIP '0' '0' '0' = some 0 := by
  constructor
  · intro c0 c1 c2 _ _ d10 d13 d20 d23
    constructor
    · intro h0
      subst h0
      refine ⟨scipDigit c1 * 64 + scipDigit c2,
        decodeSCIP_two_char c1 c2 ⟨d10, d13⟩ ⟨d20, d23⟩, ?_, ?_⟩ <;> omega
    · intro h0
      refine ⟨scipDigit c0 * 4096 + scipDigit c1 * 64 + scipDigit c2,
        decodeSCIP_three_char c0 c1 c2 h0 ⟨by assumption, by assumption⟩
          ⟨d10, d13⟩ ⟨d20, d23⟩, ?_, ?_⟩ <;> omega
  · decide

/-- Witness for C7 at the concrete group `"012"`. -/
theorem c7_rangeValueCodec_bounds_witness :
    ∃ v : ℤ, decodeSCIP '0' '1' '2' = some v ∧ 0 ≤ v ∧ v ≤ 4095 :=
  (c7_rangeValueCodec_bounds.1 '0' '1' '2' (by decide) (by decide) (by decide)
    (by decide) (by decide) (by decide)).1 rfl

/-! ### Claim C5 -/

/-- Counterexample to C5: the group `"p00"` contains the character `'p'`
whose 6-bit digit is 64, outside `[0, 63]`, yet `decodeSCIP` does not fail:
it returns the integer 262144.  (The source performs no validation and has
no FormatError path.) -/
theorem c5_counterexample :
    scipDigit 'p' = 64 ∧ ¬(scipDigit 'p' ≤ 63) ∧
      decodeSCIP 'p' '0' '0' = some 262144 := by
  decide

theorem toDigitsCore_two_all_bin :
    ∀ (fuel n : ℕ) (acc : List Char),
      (∀ c ∈ acc, isBinDigitChar c = true) →
      ∀ c ∈ Nat.toDigitsCore 2 fuel n acc, isBinDigitChar c = true := by
  intro fuel
  induction fuel with
  | zero =>
    intro n acc hacc c hc
    rw [Nat.toDigitsCore] at hc
    exact hacc c hc
  | succ fuel ih =>
    intro n acc hacc c hc
    have hd : isBinDigitChar (Nat.digitChar (n % 2)) = true := by
      have h2 : n % 2 = 0 ∨ n % 2 = 1 := by omega
      rcases h2 with h | h <;> rw [h] <;> rfl
    have hacc' : ∀ x ∈ Nat.digitChar (n % 2) :: acc, isBinDigitChar x = true := by
      intro x hx
      rcases List.mem_cons.mp hx with rfl | hx'
      · exact hd
      · exact hacc x hx'
    simp only [Nat.toDigitsCore] at hc
    split at hc
    · exact hacc' c hc
    · exact ih (n / 2) _ hacc' c hc

theorem toDigitsCore_two_ne_nil :
    ∀ (fuel n : ℕ) (acc : List Char), acc ≠ [] → Nat.toDigitsCore 2 fuel n acc ≠ [] := by
  intro fuel
  induction fuel with
  | zero =>
    intro n acc hacc
    rw [Nat.toDigitsCore]
    exact hacc
  | succ fuel ih =>
    intro n acc _
    simp only [Nat.toDigitsCore]
    split
    · exact List.cons_ne_nil _ acc
    · exact ih (n / 2) _ (List.cons_ne_nil _ acc)

theorem toDigits_two_ne_nil (n : ℕ) : Nat.toDigits 2 n ≠ [] := by
  rw [Nat.toDigits]
  simp only [Nat.toDigitsCore]
  split
  · exact List.cons_ne_nil _ []
  · exact toDigitsCore_two_ne_nil n (n / 2) _ (List.cons_ne_nil _ [])

theorem toDigits_two_all_bin (n : ℕ) :
    ∀ c ∈ Nat.toDigits 2 n, isBinDigitChar c = true := by
  rw [Nat.toDigits]
  exact toDigitsCore_two_all_bin (n + 1) n []
    (fun c hc => absurd hc (List.not_mem_nil c))

/-- `parseInt(·, 2)` succeeds on any string whose first character is a
binary digit. -/
theorem jsParseInt2_cons_bin (c : Char) (rest : List Char)
    (hc : isBinDigitChar c = true) :
    ∃ v, jsParseInt2 (String.mk (c :: rest)) = some v := by
  have h01 : c = '0' ∨ c = '1' := by
    simp only [isBinDigitChar, Bool.or_eq_true, beq_iff_eq] at hc
    exact hc
  have hsome : (jsParseInt2 (String.mk (c :: rest))).isSome = true := by
    rcases h01 with rfl | rfl <;>
      simp [jsParseInt2, List.dropWhile, List.takeWhile, isBinDigitChar]
  exact Option.isSome_iff_exists.mp hsome

/-- `parseInt(·, 2)` succeeds on `'-'` followed by a nonempty run of
binary digits (whatever follows them). -/
theorem jsParseInt2_neg_head (rest : List Char) (hne : rest ≠ [])
    (hbin : ∀ c ∈ rest, isBinDigitChar c = true) (t : List Char) :
    ∃ v, jsParseInt2 (String.mk ('-' :: (rest ++ t))) = some v := by
  match rest, hne with
  | r :: rs, _ =>
    have hr : isBinDigitChar r = true := hbin r (List.mem_cons_self r rs)
    have h01 : r = '0' ∨ r = '1' := by
      simp only [isBinDigitChar, Bool.or_eq_true, beq_iff_eq] at hr
      exact hr
    have hsome : (jsParseInt2 (String.mk ('-' :: (r :: rs ++ t)))).isSome = true := by
      rcases h01 with rfl | rfl <;>
        simp [jsParseInt2, List.dropWhile, List.takeWhile, isBinDigitChar]
    exact Option.isSome_iff_exists.mp hsome

/-- For every integer digit value `i` and every suffix, parsing the
concatenation `i.toString(2).padStart(6,'0') ++ suffix` with
`parseInt(·, 2)` yields a number (never NaN): the padded rendering starts
with `'0'`, a binary digit, or `'-'` followed by binary digits. -/
theorem jsParseInt2_padStart6_append (i : ℤ) (t : List Char) :
    ∃ v, jsParseInt2 (String.mk ((padStart6 (jsIntToString2 i)).data ++ t)) = some v := by
  have hpad : (padStart6 (jsIntToString2 i)).data =
      List.replicate (6 - (jsIntToString2 i).data.length) '0' ++ (jsIntToString2 i).data :=
    rfl
  by_cases hlen : (jsIntToString2 i).data.length < 6
  · obtain ⟨k, hk⟩ : ∃ k, 6 - (jsIntToString2 i).data.length = k + 1 :=
      ⟨5 - (jsIntToString2 i).data.length, by omega⟩
    rw [hpad, hk, List.replicate_succ, List.cons_append, List.cons_append]
    exact jsParseInt2_cons_bin '0' _ rfl
  · have h6 : 6 - (jsIntToString2 i).data.length = 0 := by omega
    have hpad0 : (padStart6 (jsIntToString2 i)).data = (jsIntToString2 i).data := by
      rw [hpad, h6, List.replicate_zero, List.nil_append]
    rw [hpad0]
    by_cases hneg : i < 0
    · have hdata : (jsIntToString2 i).data = '-' :: Nat.toDigits 2 i.natAbs := by
        rw [jsIntToString2, if_pos hneg]
        rfl
      rw [hdata, List.cons_append]
      exact jsParseInt2_neg_head (Nat.toDigits 2 i.natAbs) (toDigits_two_ne_nil _)
        (toDigits_two_all_bin _) t
    · have hdata : (jsIntToString2 i).data = Nat.toDigits 2 i.toNat := by
        rw [jsIntToString2, if_neg hneg]
        rfl
      rw [hdata]
      obtain ⟨c, rest, hcr⟩ : ∃ c rest, Nat.toDigits 2 i.toNat = c :: rest := by
        rcases h : Nat.toDigits 2 i.toNat with _ | ⟨c, rest⟩
        · exact absurd h (toDigits_two_ne_nil _)
        · exact ⟨c, rest, rfl⟩
      rw [hcr, List.cons_append]
      refine jsParseInt2_cons_bin c _ (toDigits_two_all_bin i.toNat c ?_)
      rw [hcr]
      exact List.mem_cons_self c rest

/-- C5 (amended): `decodeSCIP` never fails with a format error: it has no
error path and returns a numeric value for EVERY 3-character group — in
particular for every group containing a character whose 6-bit digit falls
outside `[0, 63]`, in any position (e.g. `"p00"` decodes to 262144). -/
theorem c5_no_format_error (c0 c1 c2 : Char) :
    ∃ v : ℤ, decodeSCIP c0 c1 c2 = some v := by
  by_cases h0 : c0 = '0' ∧ c1 = '0' ∧ c2 = '0'
  · exact ⟨0, by rw [decodeSCIP, if_pos h0]⟩
  · by_cases hc0 : c0 = '0'
    · obtain ⟨v, hv⟩ := jsParseInt2_padStart6_append (((c1.toNat : ℤ) - 33) + 33 - 48)
        (padStart6 (jsIntToString2 (((c2.toNat : ℤ) - 33) + 33 - 48))).data
      refine ⟨v, ?_⟩
      rw [decodeSCIP.eq_def, if_neg h0, if_pos hc0]
      have hstr : (padStart6 (jsIntToString2 (((c1.toNat : ℤ) - 33) + 33 - 48)) ++
          padStart6 (jsIntToString2 (((c2.toNat : ℤ) - 33) + 33 - 48))) =
          String.mk ((padStart6 (jsIntToString2 (((c1.toNat : ℤ) - 33) + 33 - 48))).data ++
            (padStart6 (jsIntToString2 (((c2.toNat : ℤ) - 33) + 33 - 48))).data) := by
        apply String.ext
        simp [String.data_append]
      simp only [hstr]
      exact hv
    · obtain ⟨v, hv⟩ := jsParseInt2_padStart6_append (((c0.toNat : ℤ) - 33) + 33 - 48)
        ((padStart6 (jsIntToString2 (((c1.toNat : ℤ) - 33) + 33 - 48))).data ++
          (padStart6 (jsIntToString2 (((c2.toNat : ℤ) - 33) + 33 - 48))).data)
      refine ⟨v, ?_⟩
      rw [decodeSCIP.eq_def, if_neg h0, if_neg hc0]
      have hstr : (padStart6 (jsIntToString2 (((c0.toNat : ℤ) - 33) + 33 - 48)) ++
          padStart6 (jsIntToString2 (((c1.toNat : ℤ) - 33) + 33 - 48)) ++
          padStart6 (jsIntToString2 (((c2.toNat : ℤ) - 33) + 33 - 48))) =
          String.mk ((padStart6 (jsIntToString2 (((c0.toNat : ℤ) - 33) + 33 - 48))).data ++
            ((padStart6 (jsIntToString2 (((c1.toNat : ℤ) - 33) + 33 - 48))).data ++
              (padStart6 (jsIntToString2 (((c2.toNat : ℤ) - 33) + 33 - 48))).data)) := by
        apply String.ext
        simp [String.data_append]
      simp only [hstr]
      exact hv

/-- Witness for the amended C5 at the group `"0p4"`, whose middle character
has the out-of-range 6-bit digit 64. -/
theorem c5_no_format_error_witness :
    ∃ v : ℤ, decodeSCIP '0' 'p' '4' = some v :=
  c5_no_format_error '0' 'p' '4'

/-! ### Claim C2 -/

set_option maxRecDepth 10000 in
/-- Counterexample to C2: on the 195-byte packet with `packet[0] = 0xAA`,
`packet[10] = 0x00`, `packet[11] = 0x64` (all other bytes zero), the first
measurement's distance is 25600 = `0x64 << 8`, not 100: `parseData` treats
the byte at sub-offset 1 as the HIGH byte (little-endian layout), not
big-endian as claimed. -/
theorem c2_counterexample :
    ((parseData ((170 :: List.replicate 10 0) ++ 100 :: List.replicate 183 0)).map
        fun ms => (ms.headD default).distance) = some 25600 ∧
      (25600 : ℤ) ≠ 100 := by
  decide

/-- C2 (amended): `parseData` decodes the 2-byte distance field with the
byte at sub-offset `DISTANCE_LOW = 0` as the low byte and the byte at
sub-offset `DISTANCE_HIGH = 1` as the high byte; consequently a 195-byte
packet with `packet[0] = 0xAA`, `packet[10] = 0x00`, `packet[11] = 0x64`
yields a first measurement with distance `0x64 * 256 = 25600`. -/
theorem c2_distance_low_byte_first (packet : List ℕ)
    (hlen : packet.length = 195)
    (h0 : packet.getD 0 0 = 0xAA)
    (h10 : packet.getD 10 0 = 0x00)
    (h11 : packet.getD 11 0 = 0x64) :
    ∃ rest, parseData packet = some (mkMeasurement packet 10 :: rest) ∧
      (mkMeasurement packet 10).distance = 25600 := by
  refine ⟨[25, 40, 55, 70, 85, 100, 115, 130, 145, 160, 175].map (mkMeasurement packet),
    ?_, ?_⟩
  · unfold parseData
    rw [h0, if_neg (by decide : ¬((0xAA : ℕ) ≠ START_BYTE)), hlen]
    simp only [DATA_START_INDEX, DATA_INTERVAL]
    have hf : ((List.range 195).filter fun i =>
        decide (10 ≤ i ∧ (i - 10) % 15 = 0 ∧ i + 15 < 195)) =
        [10, 25, 40, 55, 70, 85, 100, 115, 130, 145, 160, 175] := by
      decide
    rw [hf, List.map_cons]
  · have h10' : packet[10]?.getD 0 = 0 := by
      rw [← List.getD_eq_getElem?_getD]
      exact h10
    have h11' : packet[11]?.getD 0 = 100 := by
      rw [← List.getD_eq_getElem?_getD]
      exact h11
    simp only [mkMeasurement, DISTANCE_HIGH, DISTANCE_LOW]
    norm_num
    rw [h10', h11']
    decide

/-! ### Scan-frame pipeline lemmas -/

theorem jsSubstring_length (s : List Char) (start stop : ℕ) :
    (jsSubstring s start stop).length =
      max (min start s.length) (min stop s.length) -
        min (min start s.length) (min stop s.length) := by
  simp only [jsSubstring, List.length_take, List.length_drop]
  omega

theorem reorganize_foldl_length (l : List Char) (h : 2110 ≤ l.length) :
    ∀ js : List ℕ, (∀ j ∈ js, j < 32) → ∀ acc : List Char,
      (js.foldl
        (fun acc j =>
          if 64 + 66 * j ≤ l.length then
            acc ++ jsSubstring l (1 + 66 * j) (64 + 66 * j)
          else acc)
        acc).length = acc.length + 63 * js.length := by
  intro js
  induction js with
  | nil =>
    intro _ acc
    simp
  | cons j t ih =>
    intro hmem acc
    have hj : j < 32 := hmem j (List.mem_cons_self j t)
    have hcond : 64 + 66 * j ≤ l.length := by omega
    rw [List.foldl_cons, if_pos hcond,
      ih (fun x hx => hmem x (List.mem_cons_of_mem j hx))]
    rw [List.length_append, jsSubstring_length]
    simp only [List.length_cons]
    omega

theorem reorganizeRangeData_length (l : List Char) (h : 2110 ≤ l.length) :
    (reorganizeRangeData l).length = 2016 := by
  unfold reorganizeRangeData
  rw [reorganize_foldl_length l h (List.range 32) (fun j hj => List.mem_range.mp hj) []]
  simp

theorem encodeDistanceData_length (l : List Char) :
    (encodeDistanceData l).length = l.length / 3 := by
  induction l using encodeDistanceData.induct with
  | case1 c0 c1 c2 rest ih =>
    simp only [encodeDistanceData, List.length_cons, ih]
    omega
  | case2 l h =>
    rcases l with _ | ⟨a, _ | ⟨b, _ | ⟨c, t⟩⟩⟩
    · simp [encodeDistanceData]
    · simp [encodeDistanceData]
    · simp [encodeDistanceData]
    · exact absurd rfl (h a b c t)

theorem decodeDistanceData_length (g : List (Char × Char × Char)) :
    (decodeDistanceData g).length = g.length := by
  simp [decodeDistanceData]

theorem convertToCoordinates_length (rs : List (Option ℤ)) :
    (convertToCoordinates rs).length = rs.length := by
  simp [convertToCoordinates]

/-- On a frame of at least 2134 characters whose first 2134 characters
contain at least 3 occurrences of the marker (the character at index 12),
the third occurrence being at index ≤ 22 (full 32-block payload),
`processScan` succeeds and yields exactly 672 samples: the reorganization
keeps 32·63 = 2016 characters, i.e. 672 groups of 3. -/
theorem processScan_spec (rawData : List Char) (hlen : 2134 ≤ rawData.length)
    (h3 : 3 ≤ (findStartIndices (rawData.take 2134)
      ((rawData.take 2134).getD 12 ' ')).length)
    (hs3 : (findStartIndices (rawData.take 2134)
      ((rawData.take 2134).getD 12 ' ')).getD 2 0 ≤ 22) :
    ∃ pts, processScan rawData = Except.ok pts ∧ pts.length = 672 := by
  have hdlen : (rawData.take 2134).length = 2134 := by
    rw [List.length_take]
    omega
  have hrd : 2110 ≤ (jsSubstring (rawData.take 2134)
      ((findStartIndices (rawData.take 2134)
        ((rawData.take 2134).getD 12 ' ')).getD 2 0 + 1)
      ((rawData.take 2134).length - 1)).length := by
    rw [jsSubstring_length, hdlen]
    omega
  refine ⟨convertToCoordinates (decodeDistanceData (encodeDistanceData (reorganizeRangeData
    (jsSubstring (rawData.take 2134)
      ((findStartIndices (rawData.take 2134)
        ((rawData.take 2134).getD 12 ' ')).getD 2 0 + 1)
      ((rawData.take 2134).length - 1))))), ?_, ?_⟩
  · simp only [processScan, processLidarData, EXPECTED_DATA_SIZE]
    rw [if_neg (show ¬(rawData.length < 2134) by omega),
      if_neg (show ¬((findStartIndices (rawData.take 2134)
        ((rawData.take 2134).getD 12 ' ')).length < 3) by omega)]
    rfl
  · rw [convertToCoordinates_length, decodeDistanceData_length,
      encodeDistanceData_length, reorganizeRangeData_length _ hrd]

theorem frameC1_length : frameC1.length = 2134 := by
  rw [frameC1, List.length_append, List.length_replicate, List.length_cons,
    List.length_cons, List.length_cons, List.length_replicate]

theorem frameC1_take : frameC1.take 2134 = frameC1 :=
  List.take_of_length_le (by rw [frameC1_length])

theorem frameC1_marker : frameC1.getD 12 ' ' = 'X' := by
  decide

set_option maxRecDepth 100000 in
theorem frameC1_indices : findStartIndices frameC1 'X' = [10, 11, 12] := by
  decide

/-! ### Claim C1 -/

/-- Counterexample to C1: on the synthetic well-formed 2134-character frame
`frameC1` (third marker at index 12, full 32-block payload), the decoder
returns 672 samples, not 682: `reorganizeRangeData` keeps only characters
`[1, 64)` of each 66-character block (63 chars), so 32 blocks give 2016
characters = 672 groups of 3. -/
theorem c1_counterexample :
    (∃ pts, processScan frameC1 = Except.ok pts ∧ pts.length = 672) ∧
      (672 : ℕ) ≠ 682 := by
  constructor
  · exact processScan_spec frameC1 (by rw [frameC1_length])
      (by rw [frameC1_take, frameC1_marker, frameC1_indices]; decide)
      (by rw [frameC1_take, frameC1_marker, frameC1_indices]; decide)
  · decide

/-- C1 (amended): for every well-formed scan frame of at least 2134
characters (at least 3 occurrences of the marker character at index 12 of
the frame, the third occurrence at index ≤ 22 so that the full 32-block
payload is present), `processScan` succeeds and returns exactly
`min(decodedCount, totalPoints) = decodedCount = 672` samples — not 682 —
because only 63 of each block's 66 characters are retained (2016 payload
characters, 672 groups). -/
theorem c1_full_frame_sample_count (rawData : List Char)
    (hlen : 2134 ≤ rawData.length)
    (h3 : 3 ≤ (findStartIndices (rawData.take 2134)
      ((rawData.take 2134).getD 12 ' ')).length)
    (hs3 : (findStartIndices (rawData.take 2134)
      ((rawData.take 2134).getD 12 ' ')).getD 2 0 ≤ 22) :
    ∃ pts, processScan rawData = Except.ok pts ∧ pts.length = 672 ∧
      pts.length = min 672 TOTAL_POINTS := by
  obtain ⟨pts, h1, h2⟩ := processScan_spec rawData hlen h3 hs3
  refine ⟨pts, h1, h2, ?_⟩
  rw [h2]
  norm_num [TOTAL_POINTS]

/-- Witness for the amended C1 at the synthetic frame `frameC1`. -/
theorem c1_full_frame_sample_count_witness :
    ∃ pts, processScan frameC1 = Except.ok pts ∧ pts.length = 672 ∧
      pts.length = min 672 TOTAL_POINTS :=
  c1_full_frame_sample_count frameC1 (by rw [frameC1_length])
    (by rw [frameC1_take, frameC1_marker, frameC1_indices]; decide)
    (by rw [frameC1_take, frameC1_marker, frameC1_indices]; decide)

/-! ### Claim C8 -/

theorem convertToCoordinates_get (ranges : List (Option ℤ)) (i : ℕ)
    (h : i < (convertToCoordinates ranges).length) :
    (convertToCoordinates ranges).get ⟨i, h⟩ =
      { angle := ((-120 : ℝ) + (240 * (i : ℝ)) / 682) * Real.pi / 180
        distance := ranges.getD i none
        x := (ranges.getD i none).map fun (d : ℤ) =>
          (d : ℝ) * Real.cos (((-120 : ℝ) + (240 * (i : ℝ)) / 682) * Real.pi / 180)
        y := (ranges.getD i none).map fun (d : ℤ) =>
          (d : ℝ) * Real.sin (((-120 : ℝ) + (240 * (i : ℝ)) / 682) * Real.pi / 180) } := by
  have hi : i < ranges.length := by
    rw [← convertToCoordinates_length ranges]
    exact h
  simp [convertToCoordinates, START_ANGLE, TOTAL_POINTS, List.get_eq_getElem,
    List.getElem_map, List.getElem_range]
  constructor <;> cases ranges[i]?.getD none <;> rfl

/-- C8: for every decoded scan frame, the angle of sample `i` (0-based) is
the fixed linear function `angleDeg = -120 + i * 240/682` converted to
radians, independent of the measured distances; `x = distance·cos(angle)`
and `y = distance·sin(angle)`; the angle sequence is strictly increasing
and the first sample's angle is −120 degrees. -/
theorem c8_angle_assignment (ranges : List (Option ℤ)) :
    (∀ i (h : i < (convertToCoordinates ranges).length),
        ((convertToCoordinates ranges).get ⟨i, h⟩).angle =
            ((-120 : ℝ) + (240 * (i : ℝ)) / 682) * Real.pi / 180 ∧
          ((convertToCoordinates ranges).get ⟨i, h⟩).distance = ranges.getD i none ∧
          ∀ d : ℤ, ranges.getD i none = some d →
            ((convertToCoordinates ranges).get ⟨i, h⟩).x =
                some ((d : ℝ) *
                  Real.cos (((-120 : ℝ) + (240 * (i : ℝ)) / 682) * Real.pi / 180)) ∧
              ((convertToCoordinates ranges).get ⟨i, h⟩).y =
                some ((d : ℝ) *
                  Real.sin (((-120 : ℝ) + (240 * (i : ℝ)) / 682) * Real.pi / 180))) ∧
    (∀ i j (hi : i < (convertToCoordinates ranges).length)
        (hj : j < (convertToCoordinates ranges).length), i < j →
        ((convertToCoordinates ranges).get ⟨i, hi⟩).angle <
          ((convertToCoordinates ranges).get ⟨j, hj⟩).angle) ∧
    (∀ h0 : 0 < (convertToCoordinates ranges).length,
        ((convertToCoordinates ranges).get ⟨0, h0⟩).angle =
          (-120 : ℝ) * Real.pi / 180) := by
  have hangle : ∀ i (h : i < (convertToCoordinates ranges).length),
      ((convertToCoordinates ranges).get ⟨i, h⟩).angle =
        ((-120 : ℝ) + (240 * (i : ℝ)) / 682) * Real.pi / 180 := by
    intro i h
    rw [convertToCoordinates_get]
  refine ⟨?_, ?_, ?_⟩
  · intro i h
    refine ⟨hangle i h, ?_, ?_⟩
    · rw [convertToCoordinates_get]
    · intro d hd
      have hd' : ranges[i]?.getD none = some d := by
        rw [← List.getD_eq_getElem?_getD]
        exact hd
      rw [convertToCoordinates_get]
      rw [List.getD_eq_getElem?_getD, hd']
      constructor <;> rfl
  · intro i j hi hj hij
    rw [hangle i hi, hangle j hj]
    have hpi : (0 : ℝ) < Real.pi := Real.pi_pos
    have hij' : (i : ℝ) < (j : ℝ) := by exact_mod_cast hij
    have h1 : (-120 : ℝ) + (240 * (i : ℝ)) / 682 <
        (-120 : ℝ) + (240 * (j : ℝ)) / 682 := by
      have hfrac : (240 * (i : ℝ)) / 682 < (240 * (j : ℝ)) / 682 :=
        (div_lt_div_iff_of_pos_right (by norm_num : (0 : ℝ) < 682)).mpr (by linarith)
      linarith
    have h2 : ((-120 : ℝ) + (240 * (i : ℝ)) / 682) * Real.pi <
        ((-120 : ℝ) + (240 * (j : ℝ)) / 682) * Real.pi :=
      mul_lt_mul_of_pos_right h1 hpi
    exact (div_lt_div_iff_of_pos_right (by norm_num : (0 : ℝ) < 180)).mpr h2
  · intro h0
    rw [hangle 0 h0]
    norm_num

/-! ### Clustering lemmas (claim C3) -/

/-- Justification for the neighbor test in `getNeighbors`: over the reals,
`Math.sqrt d <= eps` is exactly `0 ≤ eps ∧ d ≤ eps²` for `d ≥ 0`. -/
theorem sqrt_le_iff_nonneg_sq (d e : ℝ) (hd : 0 ≤ d) :
    Real.sqrt d ≤ e ↔ 0 ≤ e ∧ d ≤ e ^ 2 := by
  constructor
  · intro h
    have h0 : (0 : ℝ) ≤ e := le_trans (Real.sqrt_nonneg d) h
    have hsq := Real.sq_sqrt hd
    refine ⟨h0, ?_⟩
    nlinarith [Real.sqrt_nonneg d]
  · rintro ⟨he, hde⟩
    calc Real.sqrt d ≤ Real.sqrt (e ^ 2) := Real.sqrt_le_sqrt hde
    _ = e := Real.sqrt_sq he

theorem getNeighbors_lt (points : List TreePoint) (eps : ℚ) (i : ℕ) :
    ∀ x ∈ getNeighbors points eps i, x < points.length := by
  intro x hx
  unfold getNeighbors at hx
  split at hx
  · exact List.mem_range.mp (List.mem_filter.mp hx).1
  · simp at hx

/-- Invariants of the work-list loop `expandCluster`: the visited set only
grows; the incoming cluster is preserved; every cluster member is either
inherited or a valid non-noise index that ends up visited; every newly
visited index is recorded in the cluster; every work-list entry ends up in
the cluster unless it is noise. -/
theorem expandCluster_spec (points : List TreePoint) (eps : ℚ) (minPoints : ℕ) :
    ∀ (queue : List ℕ) (visited noise : Finset ℕ) (cluster : List ℕ),
      (∀ x ∈ queue, x < points.length) → noise ⊆ visited →
      visited ⊆ (expandCluster points eps minPoints queue visited noise cluster).1 ∧
      (∀ x ∈ cluster, x ∈ (expandCluster points eps minPoints queue visited noise cluster).2) ∧
      (∀ x ∈ (expandCluster points eps minPoints queue visited noise cluster).2,
        x ∈ cluster ∨ (x < points.length ∧
          x ∈ (expandCluster points eps minPoints queue visited noise cluster).1 ∧
          x ∉ noise)) ∧
      (∀ i ∈ (expandCluster points eps minPoints queue visited noise cluster).1,
        i ∈ visited ∨ i ∈ (expandCluster points eps minPoints queue visited noise cluster).2) ∧
      (∀ x ∈ queue, x ∈ noise ∨
        x ∈ (expandCluster points eps minPoints queue visited noise cluster).2) := by
  intro queue visited noise cluster
  induction queue, visited, noise, cluster using expandCluster.induct points eps minPoints with
  | case1 visited noise cluster =>
    intro _ _
    rw [expandCluster]
    refine ⟨le_refl _, fun x hx => hx, fun x hx => Or.inl hx,
      fun i hi => Or.inl hi, fun x hx => absurd hx (List.not_mem_nil x)⟩
  | case2 visited noise cluster q rest hq ih =>
    intro hqb hnv
    simp only [dite_eq_ite] at ih
    have hrw : expandCluster points eps minPoints (q :: rest) visited noise cluster =
        expandCluster points eps minPoints rest visited noise
          (if q ∈ noise then cluster else cluster ++ [q]) := by
      rw [expandCluster, if_pos hq]
    rw [hrw]
    obtain ⟨ih1, ih2, ih3, ih4, ih5⟩ :=
      ih (fun x hx => hqb x (List.mem_cons_of_mem q hx)) hnv
    refine ⟨ih1, ?_, ?_, ih4, ?_⟩
    · intro x hx
      apply ih2
      by_cases hqn : q ∈ noise
      · rwa [if_pos hqn]
      · rw [if_neg hqn]
        exact List.mem_append_left _ hx
    · intro x hx
      rcases ih3 x hx with h | h
      · by_cases hqn : q ∈ noise
        · rw [if_pos hqn] at h
          exact Or.inl h
        · rw [if_neg hqn] at h
          rcases List.mem_append.mp h with h' | h'
          · exact Or.inl h'
          · right
            have hxq : x = q := List.mem_singleton.mp h'
            subst hxq
            exact ⟨hqb x (List.mem_cons_self x rest), ih1 hq, hqn⟩
      · exact Or.inr h
    · intro x hx
      rcases List.mem_cons.mp hx with rfl | hx'
      · by_cases hqn : x ∈ noise
        · exact Or.inl hqn
        · right
          apply ih2
          rw [if_neg hqn]
          exact List.mem_append_right _ (List.mem_singleton.mpr rfl)
      · exact ih5 x hx'
  | case3 visited noise cluster q rest hq newNeighbors ih =>
    intro hqb hnv
    try simp only [dite_eq_ite] at ih
    have hqn : q ∉ noise := fun h => hq (hnv h)
    have hrw : expandCluster points eps minPoints (q :: rest) visited noise cluster =
        expandCluster points eps minPoints
          (if minPoints ≤ (getNeighbors points eps q).length then
            rest ++ getNeighbors points eps q
          else rest)
          (insert q visited) noise (cluster ++ [q]) := by
      rw [expandCluster, if_neg hq, if_neg hqn]
    rw [hrw]
    have hqb' : ∀ x ∈ (if minPoints ≤ (getNeighbors points eps q).length then
        rest ++ getNeighbors points eps q else rest), x < points.length := by
      intro x hx
      split at hx
      · rcases List.mem_append.mp hx with h | h
        · exact hqb x (List.mem_cons_of_mem q h)
        · exact getNeighbors_lt points eps q x h
      · exact hqb x (List.mem_cons_of_mem q hx)
    have hnv' : noise ⊆ insert q visited :=
      le_trans hnv (Finset.subset_insert q visited)
    try simp only [if_neg hqn] at ih
    obtain ⟨ih1, ih2, ih3, ih4, ih5⟩ := ih hqb' hnv'
    refine ⟨le_trans (Finset.subset_insert q visited) ih1, ?_, ?_, ?_, ?_⟩
    · intro x hx
      exact ih2 x (List.mem_append_left _ hx)
    · intro x hx
      rcases ih3 x hx with h | h
      · rcases List.mem_append.mp h with h' | h'
        · exact Or.inl h'
        · right
          have hxq : x = q := List.mem_singleton.mp h'
          subst hxq
          exact ⟨hqb x (List.mem_cons_self x rest),
            ih1 (Finset.mem_insert_self x visited), hqn⟩
      · exact Or.inr h
    · intro i hi
      rcases ih4 i hi with h | h
      · rcases Finset.mem_insert.mp h with rfl | h'
        · exact Or.inr (ih2 i (List.mem_append_right _ (List.mem_singleton.mpr rfl)))
        · exact Or.inl h'
      · exact Or.inr h
    · intro x hx
      rcases List.mem_cons.mp hx with rfl | hx'
      · exact Or.inr (ih2 x (List.mem_append_right _ (List.mem_singleton.mpr rfl)))
      · refine ih5 x ?_
        split
        · exact List.mem_append_left _ hx'
        · exact hx'

/-- Invariants of the outer `dbscan` loop: every processed index ends up
visited; noise only grows and stays inside `visited`; every cluster member
is a visited, in-range, non-noise index; every visited index is noise or
belongs to some cluster. -/
theorem dbscanLoop_spec (points : List TreePoint) (eps : ℚ) (minPoints : ℕ) :
    ∀ (il : List ℕ) (visited noise : Finset ℕ) (clusters : List (List ℕ)),
      (∀ x ∈ il, x < points.length) →
      noise ⊆ visited →
      (∀ cl ∈ clusters, ∀ x ∈ cl, x ∈ visited ∧ x < points.length ∧ x ∉ noise) →
      (∀ i ∈ visited, i ∈ noise ∨ ∃ cl ∈ clusters, i ∈ cl) →
      (∀ x ∈ il, x ∈ (dbscanLoop points eps minPoints il visited noise clusters).1) ∧
      visited ⊆ (dbscanLoop points eps minPoints il visited noise clusters).1 ∧
      noise ⊆ (dbscanLoop points eps minPoints il visited noise clusters).2.1 ∧
      (∀ cl ∈ (dbscanLoop points eps minPoints il visited noise clusters).2.2, ∀ x ∈ cl,
        x ∈ (dbscanLoop points eps minPoints il visited noise clusters).1 ∧
        x < points.length ∧
        x ∉ (dbscanLoop points eps minPoints il visited noise clusters).2.1) ∧
      (∀ i ∈ (dbscanLoop points eps minPoints il visited noise clusters).1,
        i ∈ (dbscanLoop points eps minPoints il visited noise clusters).2.1 ∨
          ∃ cl ∈ (dbscanLoop points eps minPoints il visited noise clusters).2.2, i ∈ cl) := by
  intro il
  induction il with
  | nil =>
    intro visited noise clusters _ hnv hcl hvis
    simp only [dbscanLoop]
    exact ⟨fun x hx => absurd hx (List.not_mem_nil x), le_refl _, le_refl _,
      fun cl hcl' x hx => ⟨(hcl cl hcl' x hx).1, (hcl cl hcl' x hx).2.1,
        (hcl cl hcl' x hx).2.2⟩, hvis⟩
  | cons p rest ih =>
    intro visited noise clusters hb hnv hcl hvis
    by_cases hp : p ∈ visited
    · have hrw : dbscanLoop points eps minPoints (p :: rest) visited noise clusters =
          dbscanLoop points eps minPoints rest visited noise clusters := by
        rw [dbscanLoop, if_pos hp]
      rw [hrw]
      obtain ⟨j1, j2, j3, j4, j5⟩ :=
        ih visited noise clusters (fun x hx => hb x (List.mem_cons_of_mem p hx)) hnv hcl hvis
      exact ⟨fun x hx => by
        rcases List.mem_cons.mp hx with rfl | hx'
        · exact j2 hp
        · exact j1 x hx', j2, j3, j4, j5⟩
    · by_cases hsmall : (getNeighbors points eps p).length < minPoints
      · have hrw : dbscanLoop points eps minPoints (p :: rest) visited noise clusters =
            dbscanLoop points eps minPoints rest (insert p visited) (insert p noise)
              clusters := by
          rw [dbscanLoop, if_neg hp, if_pos hsmall]
        rw [hrw]
        have hnv' : insert p noise ⊆ insert p visited :=
          Finset.insert_subset_insert p hnv
        have hcl' : ∀ cl ∈ clusters, ∀ x ∈ cl,
            x ∈ insert p visited ∧ x < points.length ∧ x ∉ insert p noise := by
          intro cl hcl'' x hx
          obtain ⟨h1, h2, h3⟩ := hcl cl hcl'' x hx
          refine ⟨Finset.mem_insert_of_mem h1, h2, ?_⟩
          intro hxin
          rcases Finset.mem_insert.mp hxin with rfl | h'
          · exact hp h1
          · exact h3 h'
        have hvis' : ∀ i ∈ insert p visited,
            i ∈ insert p noise ∨ ∃ cl ∈ clusters, i ∈ cl := by
          intro i hi
          rcases Finset.mem_insert.mp hi with rfl | h'
          · exact Or.inl (Finset.mem_insert_self i noise)
          · rcases hvis i h' with h | h
            · exact Or.inl (Finset.mem_insert_of_mem h)
            · exact Or.inr h
        obtain ⟨j1, j2, j3, j4, j5⟩ :=
          ih (insert p visited) (insert p noise) clusters
            (fun x hx => hb x (List.mem_cons_of_mem p hx)) hnv' hcl' hvis'
        refine ⟨?_, ?_, ?_, j4, j5⟩
        · intro x hx
          rcases List.mem_cons.mp hx with rfl | hx'
          · exact j2 (Finset.mem_insert_self x visited)
          · exact j1 x hx'
        · exact le_trans (Finset.subset_insert p visited) j2
        · exact le_trans (Finset.subset_insert p noise) j3
      · have hrw : dbscanLoop points eps minPoints (p :: rest) visited noise clusters =
            dbscanLoop points eps minPoints rest
              (expandCluster points eps minPoints (getNeighbors points eps p)
                (insert p visited) noise [p]).1
              noise
              (clusters ++ [(expandCluster points eps minPoints (getNeighbors points eps p)
                (insert p visited) noise [p]).2]) := by
          simp only [dbscanLoop]
          rw [if_neg hp, if_neg hsmall]
        rw [hrw]
        have hpn : p ∉ noise := fun h => hp (hnv h)
        have hnv'' : noise ⊆ insert p visited :=
          le_trans hnv (Finset.subset_insert p visited)
        obtain ⟨e1, e2, e3, e4, e5⟩ :=
          expandCluster_spec points eps minPoints (getNeighbors points eps p)
            (insert p visited) noise [p] (getNeighbors_lt points eps p) hnv''
        have hnvE : noise ⊆ (expandCluster points eps minPoints (getNeighbors points eps p)
            (insert p visited) noise [p]).1 := le_trans hnv'' e1
        have hclE : ∀ cl ∈ clusters ++ [(expandCluster points eps minPoints
            (getNeighbors points eps p) (insert p visited) noise [p]).2], ∀ x ∈ cl,
            x ∈ (expandCluster points eps minPoints (getNeighbors points eps p)
              (insert p visited) noise [p]).1 ∧ x < points.length ∧ x ∉ noise := by
          intro cl hcl'' x hx
          rcases List.mem_append.mp hcl'' with h | h
          · obtain ⟨h1, h2, h3⟩ := hcl cl h x hx
            exact ⟨e1 (Finset.mem_insert_of_mem h1), h2, h3⟩
          · have hcleq := List.mem_singleton.mp h
            subst hcleq
            rcases e3 x hx with h' | h'
            · have hxp : x = p := List.mem_singleton.mp h'
              subst hxp
              exact ⟨e1 (Finset.mem_insert_self x visited),
                hb x (List.mem_cons_self x rest), hpn⟩
            · exact ⟨h'.2.1, h'.1, h'.2.2⟩
        have hvisE : ∀ i ∈ (expandCluster points eps minPoints (getNeighbors points eps p)
            (insert p visited) noise [p]).1,
            i ∈ noise ∨ ∃ cl ∈ clusters ++ [(expandCluster points eps minPoints
              (getNeighbors points eps p) (insert p visited) noise [p]).2], i ∈ cl := by
          intro i hi
          rcases e4 i hi with h | h
          · rcases Finset.mem_insert.mp h with rfl | h'
            · exact Or.inr ⟨_, List.mem_append_right _ (List.mem_singleton.mpr rfl),
                e2 i (List.mem_singleton.mpr rfl)⟩
            · rcases hvis i h' with hn | ⟨cl, hcl'', hxcl⟩
              · exact Or.inl hn
              · exact Or.inr ⟨cl, List.mem_append_left _ hcl'', hxcl⟩
          · exact Or.inr ⟨_, List.mem_append_right _ (List.mem_singleton.mpr rfl), h⟩
        obtain ⟨j1, j2, j3, j4, j5⟩ :=
          ih (expandCluster points eps minPoints (getNeighbors points eps p)
              (insert p visited) noise [p]).1 noise
            (clusters ++ [(expandCluster points eps minPoints (getNeighbors points eps p)
              (insert p visited) noise [p]).2])
            (fun x hx => hb x (List.mem_cons_of_mem p hx)) hnvE hclE hvisE
        refine ⟨?_, ?_, j3, j4, j5⟩
        · intro x hx
          rcases List.mem_cons.mp hx with rfl | hx'
          · exact j2 (e1 (Finset.mem_insert_self x visited))
          · exact j1 x hx'
        · exact le_trans (le_trans (Finset.subset_insert p visited) e1) j2

/-! ### Claim C3 -/

/-- Counterexample to C3: on the three collinear points
`(0,0), (1,0), (2,0)` with `eps = 2`, `minPoints = 2`, `dbscan` returns a
single cluster that contains the first point three times (indices
`[0,1,2,0,2,0,1]`): clusters are not duplicate-free, because
`expandCluster` re-pushes every already-visited work-list entry that is
not noise. -/
theorem c3_counterexample :
    dbscanClusters [⟨100, 0, 0⟩, ⟨100, 1, 0⟩, ⟨100, 2, 0⟩] 2 2 =
        [[⟨100, 0, 0⟩, ⟨100, 1, 0⟩, ⟨100, 2, 0⟩, ⟨100, 0, 0⟩, ⟨100, 2, 0⟩,
          ⟨100, 0, 0⟩, ⟨100, 1, 0⟩]] ∧
      2 ≤ List.count (⟨100, 0, 0⟩ : TreePoint)
        [⟨100, 0, 0⟩, ⟨100, 1, 0⟩, ⟨100, 2, 0⟩, ⟨100, 0, 0⟩, ⟨100, 2, 0⟩,
          ⟨100, 0, 0⟩, ⟨100, 1, 0⟩] := by
  constructor
  · have hr : List.range 3 = [0, 1, 2] := rfl
    have g0 : getNeighbors [⟨100, 0, 0⟩, ⟨100, 1, 0⟩, ⟨100, 2, 0⟩] 2 0 = [1, 2] := by
      simp [getNeighbors, hr, List.filter] <;> norm_num
    have g1 : getNeighbors [⟨100, 0, 0⟩, ⟨100, 1, 0⟩, ⟨100, 2, 0⟩] 2 1 = [0, 2] := by
      simp [getNeighbors, hr, List.filter] <;> norm_num
    have g2 : getNeighbors [⟨100, 0, 0⟩, ⟨100, 1, 0⟩, ⟨100, 2, 0⟩] 2 2 = [0, 1] := by
      simp [getNeighbors, hr, List.filter] <;> norm_num
    have hdb : (dbscan [⟨100, 0, 0⟩, ⟨100, 1, 0⟩, ⟨100, 2, 0⟩] 2 2).2.2 =
        [[0, 1, 2, 0, 2, 0, 1]] := by
      simp [dbscan, dbscanLoop, expandCluster, g0, g1, g2, hr]
    simp [dbscanClusters, hdb]
  · decide

/-- C3 (amended): `dbscan`'s clusters need not be disjoint or
duplicate-free (see the counterexample), but the partition-style guarantees
that do hold are: every input point index is either in the final noise set
or belongs to at least one cluster; no noise index appears in any cluster;
and clusters contain only input point indices. -/
theorem c3_noise_cluster_partition (points : List TreePoint) (eps : ℚ) (minPoints : ℕ) :
    (∀ i, i < points.length →
      i ∈ (dbscan points eps minPoints).2.1 ∨
        ∃ cl ∈ (dbscan points eps minPoints).2.2, i ∈ cl) ∧
    (∀ i ∈ (dbscan points eps minPoints).2.1,
      ∀ cl ∈ (dbscan points eps minPoints).2.2, i ∉ cl) ∧
    (∀ cl ∈ (dbscan points eps minPoints).2.2, ∀ i ∈ cl, i < points.length) := by
  obtain ⟨j1, _, _, j4, j5⟩ :=
    dbscanLoop_spec points eps minPoints (List.range points.length) ∅ ∅ []
      (fun x hx => List.mem_range.mp hx)
      (le_refl _)
      (fun cl hcl => absurd hcl (List.not_mem_nil cl))
      (fun i hi => absurd hi (Finset.not_mem_empty i))
  refine ⟨?_, ?_, ?_⟩
  · intro i hi
    exact j5 i (j1 i (List.mem_range.mpr hi))
  · intro i hi cl hcl hicl
    exact (j4 cl hcl i hicl).2.2 hi
  · intro cl hcl i hicl
    exact (j4 cl hcl i hicl).2.1

/-- Witness for the amended C3 at the counterexample input: index 0 is
classified (it belongs to a cluster), and the noise set excludes every
cluster member. -/
theorem c3_noise_cluster_partition_witness :
    (0 ∈ (dbscan [⟨100, 0, 0⟩, ⟨100, 1, 0⟩, ⟨100, 2, 0⟩] 2 2).2.1 ∨
      ∃ cl ∈ (dbscan [⟨100, 0, 0⟩, ⟨100, 1, 0⟩, ⟨100, 2, 0⟩] 2 2).2.2, 0 ∈ cl) :=
  (c3_noise_cluster_partition [⟨100, 0, 0⟩, ⟨100, 1, 0⟩, ⟨100, 2, 0⟩] 2 2).1 0
    (by decide)

/-! ### Detection pipeline lemmas (claims C4, C6, C9, C10) -/

/-- Every tree accumulated by `detectTrees`'s per-cluster fold either was
already in the accumulator or passed the radius-bounds check and carries
`diameter = radius * 2`. -/
theorem mem_foldl_treeAccum (sqrtFn : ℚ → ℚ) (validPoints : List TreePoint)
    (dp : DetectionParams) :
    ∀ (cls : List (List ℕ)) (acc : List Tree) (t : Tree),
      t ∈ cls.foldl (treeAccum sqrtFn validPoints dp) acc →
      t ∈ acc ∨ (dp.minRadius ≤ t.radius ∧ t.radius ≤ dp.maxRadius ∧
        t.diameter = t.radius * 2) := by
  intro cls
  induction cls with
  | nil =>
    intro acc t ht
    exact Or.inl (by simpa using ht)
  | cons cl rest ih =>
    intro acc t ht
    rw [List.foldl_cons] at ht
    rcases ih _ t ht with h | h
    · by_cases hlen : dp.minPoints ≤ cl.length
      · rcases hfit : fitCircle sqrtFn (cl.map (validPoints.getD · default)) with e | circ
        · rw [treeAccum, if_pos hlen] at h
          simp only [hfit] at h
          exact Or.inl h
        · rw [treeAccum, if_pos hlen] at h
          simp only [hfit] at h
          by_cases hb : dp.minRadius ≤ circ.radius ∧ circ.radius ≤ dp.maxRadius
          · rw [if_pos hb] at h
            rcases List.mem_append.mp h with h' | h'
            · exact Or.inl h'
            · right
              have ht' := List.mem_singleton.mp h'
              subst ht'
              exact ⟨hb.1, hb.2, rfl⟩
          · rw [if_neg hb] at h
            exact Or.inl h
      · rw [treeAccum, if_neg hlen] at h
        exact Or.inl h
    · exact Or.inr h

/-- The determinant of three exactly collinear points vanishes: for three
points, `det = 3·((x2−x1)(y3−y1) − (x3−x1)(y2−y1))²`. -/
theorem circleDet_three_collinear (p1 p2 p3 : TreePoint)
    (h : (p2.x - p1.x) * (p3.y - p1.y) - (p3.x - p1.x) * (p2.y - p1.y) = 0) :
    circleDet [p1, p2, p3] = 0 := by
  have hdet : circleDet [p1, p2, p3] =
      3 * ((p2.x - p1.x) * (p3.y - p1.y) - (p3.x - p1.x) * (p2.y - p1.y)) ^ 2 := by
    simp only [circleDet, List.map_cons, List.map_nil, List.sum_cons, List.sum_nil,
      List.length_cons, List.length_nil]
    push_cast
    ring
  rw [hdet, h]
  ring

/-! ### Claim C6 -/

/-- C6: `fitCircle` fails exactly on degenerate inputs: fewer than 3 points
yields `notEnoughPoints`; `|det| < 1e-10` (with enough points) yields
`degenerateFit`; otherwise a circle is returned; and 3 exactly collinear
points always fail with `degenerateFit`. -/
theorem c6_fit_failure_characterization (sqrtFn : ℚ → ℚ) (pts : List TreePoint) :
    (pts.length < 3 → fitCircle sqrtFn pts = Except.error FitFailure.notEnoughPoints) ∧
    (¬ pts.length < 3 → |circleDet pts| < detEpsilon →
      fitCircle sqrtFn pts = Except.error FitFailure.degenerateFit) ∧
    (¬ pts.length < 3 → ¬ |circleDet pts| < detEpsilon →
      ∃ c, fitCircle sqrtFn pts = Except.ok c) ∧
    (∀ p1 p2 p3 : TreePoint, pts = [p1, p2, p3] →
      (p2.x - p1.x) * (p3.y - p1.y) - (p3.x - p1.x) * (p2.y - p1.y) = 0 →
      fitCircle sqrtFn pts = Except.error FitFailure.degenerateFit) := by
  refine ⟨?_, ?_, ?_, ?_⟩
  · intro h
    rw [fitCircle, if_pos h]
  · intro h1 h2
    simp only [fitCircle]
    rw [if_neg h1, if_pos h2]
  · intro h1 h2
    simp only [fitCircle]
    rw [if_neg h1, if_neg h2]
    exact ⟨_, rfl⟩
  · intro p1 p2 p3 hpts hcol
    subst hpts
    have hd : circleDet [p1, p2, p3] = 0 := circleDet_three_collinear p1 p2 p3 hcol
    simp only [fitCircle]
    rw [if_neg (by simp), if_pos (by rw [hd]; norm_num [detEpsilon])]

/-- Witness for C6: fitting the 3 collinear points `(0,0), (1,1), (2,2)`
fails with `degenerateFit`. -/
theorem c6_fit_failure_characterization_witness :
    fitCircle (fun q => q) [⟨0, 0, 0⟩, ⟨0, 1, 1⟩, ⟨0, 2, 2⟩] =
      Except.error FitFailure.degenerateFit :=
  (c6_fit_failure_characterization (fun q => q) _).2.2.2
    ⟨0, 0, 0⟩ ⟨0, 1, 1⟩ ⟨0, 2, 2⟩ rfl (by norm_num)

/-! ### Claim C4 -/

/-- Counterexample to C4: with one in-range sample and `minPoints = 2`
(filtered count 1 < 2) the run returns the PREVIOUS tree list unchanged —
it is not cleared: the source's early `return` fires before
`this.trees = []`. -/
theorem c4_counterexample :
    detectTrees (fun q => q) [⟨100, 0, 0⟩] 0 1000 ⟨1, 2, 0, 1000⟩
        [⟨1, 2, 3, 4, []⟩] = [⟨1, 2, 3, 4, []⟩] ∧
      ([⟨1, 2, 3, 4, []⟩] : List Tree) ≠ [] := by
  constructor
  · decide
  · decide

/-- C4 (amended): when the range-filtered sample count is below
`minPoints`, `detectTrees` returns without error but leaves the result
list UNCHANGED (retaining any detections from an earlier run); it is not
cleared. -/
theorem c4_insufficient_points_keeps_previous (sqrtFn : ℚ → ℚ)
    (scanData : List TreePoint) (minRange maxRange : ℚ) (dp : DetectionParams)
    (trees : List Tree)
    (hcount : (scanData.filter fun p =>
      decide (minRange < p.distance ∧ p.distance < maxRange)).length < dp.minPoints) :
    detectTrees sqrtFn scanData minRange maxRange dp trees = trees := by
  unfold detectTrees
  by_cases hempty : scanData.length = 0
  · rw [if_pos hempty]
  · rw [if_neg hempty, if_pos hcount]

/-- Witness for the amended C4 at the counterexample input. -/
theorem c4_insufficient_points_keeps_previous_witness :
    detectTrees (fun q => q) [⟨100, 0, 0⟩] 0 1000 ⟨1, 2, 0, 1000⟩
      [⟨1, 2, 3, 4, []⟩] = [⟨1, 2, 3, 4, []⟩] :=
  c4_insufficient_points_keeps_previous (fun q => q) [⟨100, 0, 0⟩] 0 1000
    ⟨1, 2, 0, 1000⟩ [⟨1, 2, 3, 4, []⟩] (by decide)

/-! ### Claim C9 -/

/-- C9: on a successful run (nonempty scan data, filtered count at least
`minPoints` — the path that rebuilds the result list), every accepted
DetectedObject has `radius ∈ [minRadius, maxRadius]`; out-of-bounds fits
are silently discarded (they are simply not appended, no error). -/
theorem c9_accepted_radius_within_bounds (sqrtFn : ℚ → ℚ)
    (scanData : List TreePoint) (minRange maxRange : ℚ) (dp : DetectionParams)
    (trees : List Tree)
    (hne : ¬ scanData.length = 0)
    (hcount : ¬ (scanData.filter fun p =>
      decide (minRange < p.distance ∧ p.distance < maxRange)).length < dp.minPoints) :
    ∀ t ∈ detectTrees sqrtFn scanData minRange maxRange dp trees,
      dp.minRadius ≤ t.radius ∧ t.radius ≤ dp.maxRadius := by
  intro t ht
  unfold detectTrees at ht
  rw [if_neg hne, if_neg hcount] at ht
  rcases mem_foldl_treeAccum sqrtFn _ dp _ [] t ht with h | h
  · exact absurd h (List.not_mem_nil t)
  · exact ⟨h.1, h.2.1⟩

/-- A fully evaluated successful run: three mutually-close points
`(0,0), (4,0), (0,4)` with `eps = 10`, `minPoints = 2` give one cluster and
one accepted tree centered at `(2,2)` (radius 8 under the identity square
root). -/
theorem detectTrees_example_eval :
    detectTrees (fun q => q) [⟨100, 0, 0⟩, ⟨100, 4, 0⟩, ⟨100, 0, 4⟩] 0 1000
        ⟨10, 2, 0, 1000⟩ [] =
      [⟨2, 2, 8, 16,
        [⟨100, 0, 0⟩, ⟨100, 4, 0⟩, ⟨100, 0, 4⟩, ⟨100, 0, 0⟩, ⟨100, 0, 4⟩,
          ⟨100, 0, 0⟩, ⟨100, 4, 0⟩]⟩] := by
  have hr : List.range 3 = [0, 1, 2] := rfl
  have g0 : getNeighbors [⟨100, 0, 0⟩, ⟨100, 4, 0⟩, ⟨100, 0, 4⟩] 10 0 = [1, 2] := by
    simp [getNeighbors, hr, List.filter] <;> norm_num
  have g1 : getNeighbors [⟨100, 0, 0⟩, ⟨100, 4, 0⟩, ⟨100, 0, 4⟩] 10 1 = [0, 2] := by
    simp [getNeighbors, hr, List.filter] <;> norm_num
  have g2 : getNeighbors [⟨100, 0, 0⟩, ⟨100, 4, 0⟩, ⟨100, 0, 4⟩] 10 2 = [0, 1] := by
    simp [getNeighbors, hr, List.filter] <;> norm_num
  have hdb : (dbscan [⟨100, 0, 0⟩, ⟨100, 4, 0⟩, ⟨100, 0, 4⟩] 10 2).2.2 =
      [[0, 1, 2, 0, 2, 0, 1]] := by
    simp [dbscan, dbscanLoop, expandCluster, g0, g1, g2, hr]
  have hfit : fitCircle (fun q => q)
      [⟨100, 0, 0⟩, ⟨100, 4, 0⟩, ⟨100, 0, 4⟩, ⟨100, 0, 0⟩, ⟨100, 0, 4⟩,
        ⟨100, 0, 0⟩, ⟨100, 4, 0⟩] = Except.ok ⟨2, 2, 8⟩ := by
    norm_num [fitCircle, circleDet, detEpsilon]
  simp +decide [detectTrees, treeAccum, List.filter, List.getD, hdb, hfit]
  norm_num

/-- Witness for C9: the accepted tree of the successful run
`detectTrees_example_eval` has its radius within `[minRadius, maxRadius]`. -/
theorem c9_accepted_radius_within_bounds_witness :
    (⟨10, 2, 0, 1000⟩ : DetectionParams).minRadius ≤
        (⟨2, 2, 8, 16,
          [⟨100, 0, 0⟩, ⟨100, 4, 0⟩, ⟨100, 0, 4⟩, ⟨100, 0, 0⟩, ⟨100, 0, 4⟩,
            ⟨100, 0, 0⟩, ⟨100, 4, 0⟩]⟩ : Tree).radius ∧
      (⟨2, 2, 8, 16,
        [⟨100, 0, 0⟩, ⟨100, 4, 0⟩, ⟨100, 0, 4⟩, ⟨100, 0, 0⟩, ⟨100, 0, 4⟩,
          ⟨100, 0, 0⟩, ⟨100, 4, 0⟩]⟩ : Tree).radius ≤
        (⟨10, 2, 0, 1000⟩ : DetectionParams).maxRadius :=
  c9_accepted_radius_within_bounds (fun q => q)
    [⟨100, 0, 0⟩, ⟨100, 4, 0⟩, ⟨100, 0, 4⟩] 0 1000 ⟨10, 2, 0, 1000⟩ []
    (by decide) (by decide) _
    (by rw [detectTrees_example_eval]; exact List.mem_singleton.mpr rfl)

/-! ### Claim C10 -/

/-- C10: every DetectedObject produced by a successful `detectTrees` run
satisfies `diameter = 2 · radius` exactly (the source stores
`circle.radius * 2`). -/
theorem c10_diameter_eq_twice_radius (sqrtFn : ℚ → ℚ)
    (scanData : List TreePoint) (minRange maxRange : ℚ) (dp : DetectionParams)
    (trees : List Tree)
    (hne : ¬ scanData.length = 0)
    (hcount : ¬ (scanData.filter fun p =>
      decide (minRange < p.distance ∧ p.distance < maxRange)).length < dp.minPoints) :
    ∀ t ∈ detectTrees sqrtFn scanData minRange maxRange dp trees,
      t.diameter = 2 * t.radius := by
  intro t ht
  unfold detectTrees at ht
  rw [if_neg hne, if_neg hcount] at ht
  rcases mem_foldl_treeAccum sqrtFn _ dp _ [] t ht with h | h
  · exact absurd h (List.not_mem_nil t)
  · rw [h.2.2]
    ring

/-- Witness for C10: the accepted tree of the successful run
`detectTrees_example_eval` satisfies `diameter = 2 · radius`. -/
theorem c10_diameter_eq_twice_radius_witness :
    (⟨2, 2, 8, 16,
      [⟨100, 0, 0⟩, ⟨100, 4, 0⟩, ⟨100, 0, 4⟩, ⟨100, 0, 0⟩, ⟨100, 0, 4⟩,
        ⟨100, 0, 0⟩, ⟨100, 4, 0⟩]⟩ : Tree).diameter =
      2 * (⟨2, 2, 8, 16,
        [⟨100, 0, 0⟩, ⟨100, 4, 0⟩, ⟨100, 0, 4⟩, ⟨100, 0, 0⟩, ⟨100, 0, 4⟩,
          ⟨100, 0, 0⟩, ⟨100, 4, 0⟩]⟩ : Tree).radius :=
  c10_diameter_eq_twice_radius (fun q => q)
    [⟨100, 0, 0⟩, ⟨100, 4, 0⟩, ⟨100, 0, 4⟩] 0 1000 ⟨10, 2, 0, 1000⟩ []
    (by decide) (by decide) _
    (by rw [detectTrees_example_eval]; exact List.mem_singleton.mpr rfl)

/-- Witness for C8 at the concrete range list `[some 1000, none]`:
the first sample's angle is −120° in radians. -/
theorem c8_angle_assignment_witness :
    ((convertToCoordinates [some 1000, none]).get
        ⟨0, by simp [convertToCoordinates]⟩).angle = (-120 : ℝ) * Real.pi / 180 :=
  (c8_angle_assignment [some 1000, none]).2.2 _

set_option maxRecDepth 10000 in
/-- Witness for the amended C2 at the concrete all-zero packet with
`packet[0] = 0xAA` and `packet[11] = 0x64`. -/
theorem c2_distance_low_byte_first_witness :
    ∃ rest,
      parseData ((170 :: List.replicate 10 0) ++ 100 :: List.replicate 183 0) =
          some (mkMeasurement ((170 :: List.replicate 10 0) ++ 100 :: List.replicate 183 0)
            10 :: rest) ∧
        (mkMeasurement ((170 :: List.replicate 10 0) ++ 100 :: List.replicate 183 0)
          10).distance = 25600 :=
  c2_distance_low_byte_first _ (by decide) (by decide) (by decide) (by decide)

end Lidar

